import Mathlib

/-!
# Verification of the manpower forecasting engine

A shallow embedding of the curve generation and adjustment engine of
`src/app.py` (the Streamlit manpower forecasting application), together with
proofs and refutations of the specified properties.

Modelling conventions:
* Calendar dates are integers counting days since 1970-01-01, so that
  `weekday d = (d + 3) % 7` matches Python's `date.weekday()` (Monday = 0;
  1970-01-01 was a Thursday, weekday 3).
* Python/pandas floating-point arithmetic is modelled over `ℚ`; `round(x, 2)`
  is modelled by `round2`, rounding to two decimals with ties going to the
  even hundredth (Python's round-half-to-even).
* Dataframes become lists of structures; boolean-mask updates become
  `List.map` with a pointwise guard; loops over dataframe rows become
  `List.foldl`.
* The adjustment engine (Section 3 of `app.py`) updates one big dataframe in
  which every mask is restricted to a single task's rows, so the per-task
  computation is embedded directly (`baseCurve`, `phaseACurveDaily`,
  `phaseACurveWeekly`, `phaseB`, `adjustedCurveDaily`, `adjustedCurveWeekly`);
  the whole-action pipeline over all selected tasks, with its validation stops,
  is embedded separately (`generateInitialReport`, `generateFinalDaily`,
  `generateFinalWeekly`).
-/

set_option autoImplicit false
set_option maxRecDepth 40000

section ManpowerDevelopment

attribute [local semireducible] Rat.mul Rat.add Rat.sub Rat.inv

namespace Manpower

/-! ## Calendar primitives -/

/-- Python `date.weekday()`: Monday = 0 … Sunday = 6, for a day number counted
from 1970-01-01 (a Thursday). -/
def weekday (d : ℤ) : ℤ := (d + 3) % 7

/-- Civil-calendar year of a day number (days since 1970-01-01), via the
standard era/year-of-era decomposition of the proleptic Gregorian calendar. -/
def yearOfDay (z : ℤ) : ℤ :=
  let z' := z + 719468
  let era := (if 0 ≤ z' then z' else z' - 146096) / 146097
  let doe := z' - era * 146097
  let yoe := (doe - doe / 1460 + doe / 36524 - doe / 146096) / 365
  let y := yoe + era * 400
  let doy := doe - (365 * yoe + yoe / 4 - yoe / 100)
  let mp := (5 * doy + 2) / 153
  let m := mp + (if mp < 10 then 3 else -9)
  y + (if m ≤ 2 then 1 else 0)

/-- Day number (days since 1970-01-01) of a civil date `(y, m, d)` in the
proleptic Gregorian calendar. -/
def dayOfCivil (y m d : ℤ) : ℤ :=
  let y' := y - (if m ≤ 2 then 1 else 0)
  let era := (if 0 ≤ y' then y' else y' - 399) / 400
  let yoe := y' - era * 400
  let mp := m + (if 2 < m then -3 else 9)
  let doy := (153 * mp + 2) / 5 + d - 1
  let doe := yoe * 365 + yoe / 4 - yoe / 100 + doy
  era * 146097 + doe - 719468

/-- The Thursday of the ISO week containing day `d`. -/
def isoThursday (d : ℤ) : ℤ := d - weekday d + 3

/-- ISO week-numbering year of a day, as returned by Python's
`date.isocalendar().year`: the civil year of the week's Thursday. -/
def isoYear (d : ℤ) : ℤ := yearOfDay (isoThursday d)

/-- ISO week number of a day, as returned by Python's
`date.isocalendar().week`. -/
def isoWeek (d : ℤ) : ℤ :=
  let th := isoThursday d
  let y := yearOfDay th
  (th - dayOfCivil y 1 1) / 7 + 1

/-- Round a rational to the nearest integer, ties to the even integer
(Python's `round` tie-breaking), computed from the reduced numerator and
denominator. -/
def roundHalfEven (q : ℚ) : ℤ :=
  if 2 * (q.num % (q.den : ℤ)) < (q.den : ℤ) then q.num / (q.den : ℤ)
  else if (q.den : ℤ) < 2 * (q.num % (q.den : ℤ)) then q.num / (q.den : ℤ) + 1
  else if (q.num / (q.den : ℤ)) % 2 = 0 then q.num / (q.den : ℤ)
  else q.num / (q.den : ℤ) + 1

/-- Python's `round(q, 2)`: round to two decimal places. -/
def round2 (q : ℚ) : ℚ := (roundHalfEven (q * 100) : ℚ) / 100

/-- All calendar dates from `s` to `e` inclusive — `pd.date_range(s, e)`. -/
def dateRange (s e : ℤ) : List ℤ :=
  (List.range (e - s + 1).toNat).map (fun n : ℕ => s + (n : ℤ))

/-- The distinct elements of a list in order of first occurrence: the key set
of a Python dict built by insertion, and pandas `Series.unique()`. -/
def firstKeys {α : Type} [DecidableEq α] : List α → List α
  | [] => []
  | k :: ks => k :: (firstKeys ks).filter (fun x => x ≠ k)

/-! ## Per-task quantities (`calculate_baseline` and the progress tables) -/

/-- One task's engine-relevant inputs: BOQ, rate per man-day and date range
(the row the user fills in before `Generate Initial Report`). -/
structure Task where
  boq : ℚ
  rate : ℚ
  startD : ℤ
  endD : ℤ
deriving DecidableEq

/-- `calculate_baseline` from `app.py`: planned man-days, uniform daily
manpower and inclusive duration. -/
def calculate_baseline (rate boq : ℚ) (start_date end_date : ℤ) : ℚ × ℚ × ℤ :=
  let man_days := boq / rate
  let duration_days := end_date - start_date + 1
  let manpower := man_days / (duration_days : ℚ)
  (man_days, manpower, duration_days)

/-- Planned man-days of a task: `boq / rate`. -/
def manDays (t : Task) : ℚ := t.boq / t.rate

/-- Inclusive duration in days: `(end_date - start_date).days + 1`. -/
def durationDays (t : Task) : ℤ := t.endD - t.startD + 1

/-- Task-level Adjusted Man-Days: `man_days / (Progress % / 100)` with the
task-level progress `P` (default 100, editable in [1,300]). -/
def adjManDays (t : Task) (P : ℚ) : ℚ := manDays t / (P / 100)

/-- The working dates of a range: dates whose weekday lies in the global
working-weekday set `W` (`[d for d in dates if d.weekday() in selected_weekdays]`). -/
def workingDates (W : List ℤ) (s e : ℤ) : List ℤ :=
  (dateRange s e).filter (fun d => weekday d ∈ W)

/-- Number of working days in the range. -/
def wcount (W : List ℤ) (s e : ℤ) : ℕ := (workingDates W s e).length

/-- The weekly buckets of a list of working dates, as built by the
`weeks = {}` insertion loop of `app.py`: keys are `d.isocalendar().week`
values (ISO week number only — the ISO year is not part of the key), in order
of first occurrence; each bucket holds the dates carrying that key. -/
def weekBuckets (ds : List ℤ) : List (ℤ × List ℤ) :=
  (firstKeys (ds.map isoWeek)).map (fun k => (k, ds.filter (fun d => isoWeek d = k)))

/-- `len(weeks)` for a task: the number of weekly buckets of its working dates. -/
def numWeeks (W : List ℤ) (s e : ℤ) : ℕ := (weekBuckets (workingDates W s e)).length

/-- Planned weekly share used by the weekly refinement:
`100 / len(weeks) if len(weeks) > 0 else 0` (unrounded). -/
def plannedWeekly (W : List ℤ) (s e : ℤ) : ℚ :=
  if 0 < numWeeks W s e then 100 / (numWeeks W s e : ℚ) else 0

/-- Planned daily share used by the daily refinement:
`100 / len(working_days) if len(working_days) > 0 else 0` (unrounded). -/
def plannedDaily (W : List ℤ) (s e : ℤ) : ℚ :=
  if 0 < wcount W s e then 100 / (wcount W s e : ℚ) else 0

/-- The auto-divided default of the weekly progress table:
`round(100.0 / num_weeks, 2) if num_weeks > 0 else 0.0`, the same value for
every bucket. -/
def weeklyDefault (W : List ℤ) (s e : ℤ) : ℚ :=
  if 0 < numWeeks W s e then round2 (100 / (numWeeks W s e : ℚ)) else 0

/-- The auto-divided default of the daily progress table: the rounded even
share `round(100.0 / len(working_days), 2)` on working dates, `0.0` otherwise. -/
def dailyDefault (W : List ℤ) (s e : ℤ) (d : ℤ) : ℚ :=
  if d ∈ workingDates W s e then
    (if 0 < wcount W s e then round2 (100 / (wcount W s e : ℚ)) else 0)
  else 0

/-- Sum of the auto-divided daily progress table of one task (all dates in
range, non-working dates contributing 0). -/
def dailyDefaultSum (W : List ℤ) (s e : ℤ) : ℚ :=
  ((dateRange s e).map (fun d => dailyDefault W s e d)).sum

/-- Sum of the auto-divided weekly progress table of one task (one record per
bucket, all carrying `weeklyDefault`). -/
def weeklyDefaultSum (W : List ℤ) (s e : ℤ) : ℚ :=
  ((weekBuckets (workingDates W s e)).map (fun _ => weeklyDefault W s e)).sum

/-! ## Per-task curve adjustment engine (Section 3 of `app.py`)

The source keeps all tasks in one `adjusted_df` and every update masks on one
task's rows, so tasks evolve independently; the functions below embed the
computation restricted to one task. -/

/-- One point of a task's manpower curve: a row of `adjusted_df` restricted to
one task. -/
structure Pt where
  date : ℤ
  mp : ℚ
deriving DecidableEq

/-- The curve a task starts from in Section 3:
`base_mp = Adjusted Man-Days / duration` on every date of its range. -/
def baseCurve (t : Task) (P : ℚ) : List Pt :=
  (dateRange t.startD t.endD).map (fun d => ⟨d, adjManDays t P / (durationDays t : ℚ)⟩)

/-- One step of the daily refinement loop: the record `(date, actual %)`
multiplies the masked row by `actual / planned`, provided `planned > 0`. -/
def applyDaily (planned : ℚ) (r : ℤ × ℚ) (c : List Pt) : List Pt :=
  if 0 < planned then
    c.map (fun p => if p.date = r.1 then ⟨p.date, p.mp * (r.2 / planned)⟩ else p)
  else c

/-- The daily progress table of one task with actual percentages `a`: one
record per calendar date of the range. -/
def dailyRecs (s e : ℤ) (a : ℤ → ℚ) : List (ℤ × ℚ) :=
  (dateRange s e).map (fun d => (d, a d))

/-- Phase A, daily mode: fold the daily refinement over all records of the
task's daily table. -/
def phaseACurveDaily (t : Task) (P : ℚ) (W : List ℤ) (a : ℤ → ℚ) : List Pt :=
  (dailyRecs t.startD t.endD a).foldl
    (fun c r => applyDaily (plannedDaily W t.startD t.endD) r c) (baseCurve t P)

/-- The weekly progress table of one task with actual percentages `aw`
(indexed by bucket key): one record `(Week Start, Week End, actual %)` per
bucket, the span being the min/max working date of the bucket. -/
def weeklyRecs (W : List ℤ) (s e : ℤ) (aw : ℤ → ℚ) : List (ℤ × ℤ × ℚ) :=
  (weekBuckets (workingDates W s e)).map
    (fun b => (b.2.min?.getD 0, b.2.max?.getD 0, aw b.1))

/-- One step of the weekly refinement loop: the record
`(Week Start, Week End, actual %)` multiplies all rows dated inside the span
by `actual / planned`, provided `planned > 0`. -/
def applyWeekly (planned : ℚ) (r : ℤ × ℤ × ℚ) (c : List Pt) : List Pt :=
  if 0 < planned then
    c.map (fun p =>
      if r.1 ≤ p.date ∧ p.date ≤ r.2.1 then ⟨p.date, p.mp * (r.2.2 / planned)⟩ else p)
  else c

/-- Phase A, weekly mode: fold the weekly refinement over all records of the
task's weekly table. -/
def phaseACurveWeekly (t : Task) (P : ℚ) (W : List ℤ) (aw : ℤ → ℚ) : List Pt :=
  (weeklyRecs W t.startD t.endD aw).foldl
    (fun c r => applyWeekly (plannedWeekly W t.startD t.endD) r c) (baseCurve t P)

/-- `task_df["Manpower"].sum()`: total of a task's curve. -/
def curveTotal (c : List Pt) : ℚ := (c.map (fun p => p.mp)).sum

/-- Phase B, per-task proportional scaling: rescale the whole curve by
`required_total / actual_total` when the actual total is positive, else leave
it unchanged (`scale = 1`). -/
def phaseB (required : ℚ) (c : List Pt) : List Pt :=
  let actual := curveTotal c
  let scale := if 0 < actual then required / actual else 1
  c.map (fun p => ⟨p.date, p.mp * scale⟩)

/-- The final adjusted curve of one task in Daily Report mode, before the
2-decimal display rounding. -/
def adjustedCurveDaily (t : Task) (P : ℚ) (W : List ℤ) (a : ℤ → ℚ) : List Pt :=
  phaseB (adjManDays t P) (phaseACurveDaily t P W a)

/-- The final adjusted curve of one task in Weekly Report mode, before the
2-decimal display rounding. -/
def adjustedCurveWeekly (t : Task) (P : ℚ) (W : List ℤ) (aw : ℤ → ℚ) : List Pt :=
  phaseB (adjManDays t P) (phaseACurveWeekly t P W aw)

/-! ## The report-generation actions over all selected tasks -/

/-- The error taxonomy of the report-generation actions. Each error carries
the offending `task_code` surfaced by the corresponding `st.error` message. -/
inductive ReportError where
  | invalidInput (task : String)
  | invalidDateRange (task : String)
  | progressOverflow (task : String)
deriving DecidableEq

/-- One row of the editable task-input table: `task_code`, BOQ, rate per
man-day and date range. -/
structure TaskInput where
  code : String
  boq : ℚ
  rate : ℚ
  startD : ℤ
  endD : ℤ
deriving DecidableEq

/-- One row of `baseline_df`. -/
structure BaselineRow where
  code : String
  boq : ℚ
  rate : ℚ
  man_days : ℚ
  duration_days : ℤ
  manpower : ℚ
  startD : ℤ
  endD : ℤ
deriving DecidableEq

/-- The baseline record appended for a validated task row, via
`calculate_baseline`. -/
def mkBaselineRow (t : TaskInput) : BaselineRow :=
  let b := calculate_baseline t.rate t.boq t.startD t.endD
  ⟨t.code, t.boq, t.rate, b.1, b.2.2, b.2.1, t.startD, t.endD⟩

/-- The `Generate Initial Report` loop: for each row, `st.stop()` aborts the
whole action when `boq ≤ 0` (reported as "BOQ must be > 0", the
`InvalidInput` class) or when `end_date < start_date` (`InvalidDateRange`);
otherwise the row's baseline is appended. The table exists only if every row
validates. Note that the source never validates `rate_per_manday`. -/
def generateInitialReport : List TaskInput → Except ReportError (List BaselineRow)
  | [] => .ok []
  | t :: ts =>
    if t.boq ≤ 0 then .error (.invalidInput t.code)
    else if t.endD < t.startD then .error (.invalidDateRange t.code)
    else
      match generateInitialReport ts with
      | .error err => .error err
      | .ok rest => .ok (mkBaselineRow t :: rest)

/-- The baseline daily curve (`timeline_rows` of Section 1): every calendar
date of every task's range receives that task's uniform `manpower` value,
with no reference to the working-day calendar. -/
def baselineTimeline (rows : List BaselineRow) : List (ℤ × ℚ) :=
  rows.flatMap (fun r => (dateRange r.startD r.endD).map (fun d => (d, r.manpower)))

/-- One row of the daily progress table `daily_df`. -/
structure DRec where
  task : String
  date : ℤ
  actual : ℚ
deriving DecidableEq

/-- One row of the weekly progress table `weekly_df`. -/
structure WRec where
  task : String
  weekStart : ℤ
  weekEnd : ℤ
  actual : ℚ
deriving DecidableEq

/-- `daily_df.groupby("Task")["Progress %"].sum()`: per-task effective daily
progress. pandas iterates group keys in sorted order; we keep them in first
appearance order, which can only affect which overflowing task is reported
first. -/
def dailyEffective (recs : List DRec) : List (String × ℚ) :=
  (firstKeys (recs.map (fun r => r.task))).map
    (fun c => (c, ((recs.filter (fun r => r.task = c)).map (fun r => r.actual)).sum))

/-- `weekly_df.groupby("Task")["Progress %"].sum()`: per-task effective weekly
progress (never validated against 100). -/
def weeklyEffective (recs : List WRec) : List (String × ℚ) :=
  (firstKeys (recs.map (fun r => r.task))).map
    (fun c => (c, ((recs.filter (fun r => r.task = c)).map (fun r => r.actual)).sum))

/-- Left-merge lookup of a per-task value (tasks always have records in the
generated tables, so the default branch is never reached in the app). -/
def lookupEff (eff : List (String × ℚ)) (c : String) : ℚ :=
  ((eff.find? (fun pr => pr.1 = c)).map (fun pr => pr.2)).getD 0

/-- `Balance BOQ = boq * (1 - effective_progress / 100)` for every task row. -/
def balanceBOQ (rows : List BaselineRow) (eff : List (String × ℚ)) : List (String × ℚ) :=
  rows.map (fun r => (r.code, r.boq * (1 - lookupEff eff r.code / 100)))

/-- One row of `adjusted_df`: (task, date, manpower). -/
structure CPoint where
  task : String
  date : ℤ
  mp : ℚ
deriving DecidableEq

/-- A task row's `Adjusted Man-Days` merged from `task_progress_df`:
`man_days / (Progress % / 100)` with the task-level progress assignment `P`. -/
def rowAdjMD (r : BaselineRow) (P : String → ℚ) : ℚ := r.man_days / (P r.code / 100)

/-- `adjusted_rows` of Section 3: every date of every task's range starts at
`base_mp = Adjusted Man-Days / duration`. -/
def buildAdjusted (rows : List BaselineRow) (P : String → ℚ) : List CPoint :=
  rows.flatMap (fun r =>
    (dateRange r.startD r.endD).map (fun d =>
      ⟨r.code, d, rowAdjMD r P / ((dateRange r.startD r.endD).length : ℚ)⟩))

/-- The planned daily share of the task named `c`, recomputed from its
baseline row (`100 / len(working_days)` when positive). A missing row would
crash the source (`iloc[0]`); the generated tables always match, and we model
the missing case as planned share 0, which skips the update. -/
def plannedDailyFor (rows : List BaselineRow) (W : List ℤ) (c : String) : ℚ :=
  match rows.find? (fun r => r.code = c) with
  | some r => plannedDaily W r.startD r.endD
  | none => 0

/-- The planned weekly share of the task named `c`, recomputed from its
baseline row (`100 / len(weeks)` when positive). -/
def plannedWeeklyFor (rows : List BaselineRow) (W : List ℤ) (c : String) : ℚ :=
  match rows.find? (fun r => r.code = c) with
  | some r => plannedWeekly W r.startD r.endD
  | none => 0

/-- One step of the daily refinement over `adjusted_df`: mask on the record's
task and date, multiply by `actual / planned` when `planned > 0`. -/
def applyDailyAll (rows : List BaselineRow) (W : List ℤ) (rec : DRec)
    (c : List CPoint) : List CPoint :=
  let planned := plannedDailyFor rows W rec.task
  if 0 < planned then
    c.map (fun p =>
      if p.task = rec.task ∧ p.date = rec.date then
        ⟨p.task, p.date, p.mp * (rec.actual / planned)⟩
      else p)
  else c

/-- One step of the weekly refinement over `adjusted_df`: mask on the record's
task and week span, multiply by `actual / planned` when `planned > 0`. -/
def applyWeeklyAll (rows : List BaselineRow) (W : List ℤ) (w : WRec)
    (c : List CPoint) : List CPoint :=
  let planned := plannedWeeklyFor rows W w.task
  if 0 < planned then
    c.map (fun p =>
      if p.task = w.task ∧ w.weekStart ≤ p.date ∧ p.date ≤ w.weekEnd then
        ⟨p.task, p.date, p.mp * (w.actual / planned)⟩
      else p)
  else c

/-- The per-task proportional scaling loop over `adjusted_df["Task"].unique()`:
each task's rows are rescaled by `required_total / actual_total` (1 when the
actual total is not positive). -/
def phaseBAll (rows : List BaselineRow) (P : String → ℚ) (c0 : List CPoint) :
    List CPoint :=
  (firstKeys (c0.map (fun p => p.task))).foldl
    (fun cur t =>
      let actual := ((cur.filter (fun p => p.task = t)).map (fun p => p.mp)).sum
      let required :=
        match rows.find? (fun r => r.code = t) with
        | some r => rowAdjMD r P
        | none => 0
      let scale := if 0 < actual then required / actual else 1
      cur.map (fun p => if p.task = t then ⟨p.task, p.date, p.mp * scale⟩ else p))
    c0

/-- `adjusted_df["Manpower"].round(2)`: the 2-decimal display rounding. -/
def roundCurve (c : List CPoint) : List CPoint :=
  c.map (fun p => ⟨p.task, p.date, round2 p.mp⟩)

/-- The successive stages of the `Generate Final Report` action, in source
order; a run's trace records which stages executed before it finished or was
aborted by `st.stop()`. -/
inductive Stage where
  | buildCurve
  | weeklyRefine
  | dailyRefine
  | perTaskScaling
  | rounding
  | overflowCheck
  | effectiveAndBalance
deriving DecidableEq

/-- The data a completed final report displays: the (display-rounded) adjusted
curve, the per-task effective progress and the per-task Balance BOQ. -/
structure FinalReport where
  curve : List CPoint
  effective : List (String × ℚ)
  balance : List (String × ℚ)
deriving DecidableEq

/-- The `Generate Final Report` action in Daily Report mode, with its stage
trace. Mirroring the source order: the adjusted curve is built, refined by the
daily records, rescaled per task and rounded; only then is the daily effective
progress computed and checked, `st.stop()` aborting with `ProgressOverflow`
at the first task whose daily percentages sum over 100. -/
def generateFinalDaily (rows : List BaselineRow) (P : String → ℚ)
    (recs : List DRec) (W : List ℤ) : List Stage × Except ReportError FinalReport :=
  let c0 := buildAdjusted rows P
  let c1 := recs.foldl (fun c r => applyDailyAll rows W r c) c0
  let c2 := phaseBAll rows P c1
  let c3 := roundCurve c2
  let eff := dailyEffective recs
  match eff.find? (fun pr => 100 < pr.2) with
  | some pr =>
      ([Stage.buildCurve, Stage.dailyRefine, Stage.perTaskScaling, Stage.rounding,
        Stage.overflowCheck],
       Except.error (ReportError.progressOverflow pr.1))
  | none =>
      ([Stage.buildCurve, Stage.dailyRefine, Stage.perTaskScaling, Stage.rounding,
        Stage.overflowCheck, Stage.effectiveAndBalance],
       Except.ok ⟨c3, eff, balanceBOQ rows eff⟩)

/-- The `Generate Final Report` action in Weekly Report mode, with its stage
trace: the same pipeline driven by the weekly records, but with no overflow
validation at all — the action always completes. -/
def generateFinalWeekly (rows : List BaselineRow) (P : String → ℚ)
    (wrecs : List WRec) (W : List ℤ) : List Stage × Except ReportError FinalReport :=
  let c0 := buildAdjusted rows P
  let c1 := wrecs.foldl (fun c w => applyWeeklyAll rows W w c) c0
  let c2 := phaseBAll rows P c1
  let c3 := roundCurve c2
  let eff := weeklyEffective wrecs
  ([Stage.buildCurve, Stage.weeklyRefine, Stage.perTaskScaling, Stage.rounding,
    Stage.effectiveAndBalance],
   Except.ok ⟨c3, eff, balanceBOQ rows eff⟩)

/-! ## Concrete sample inputs for witnesses and counterexamples

Day numbers: 19723 = Mon 2024-01-01, 19726 = Thu 2024-01-04,
19729 = Sun 2024-01-07, 19730 = Mon 2024-01-08, 19778 = Sun 2024-02-25,
20087 = Mon 2024-12-30. -/

/-- Mon–Sat, the app's default working-weekday set. -/
def sampleW : List ℤ := [0, 1, 2, 3, 4, 5]

/-- Every weekday working. -/
def allWeekdays : List ℤ := [0, 1, 2, 3, 4, 5, 6]

/-- The spec's sample task (boq 12000, rate 8) over Mon Jan 1 – Sun Jan 7 2024. -/
def sampleTaskWeek : Task := ⟨12000, 8, 19723, 19729⟩

/-- The same task extended to Mon Jan 8 2024, so its range crosses a week
boundary with a Sunday strictly between the two week spans. -/
def sampleTaskSpan : Task := ⟨12000, 8, 19723, 19730⟩

/-- The spec's sample task as an input row over Mon Jan 1 – Thu Jan 4 2024. -/
def sampleInput : TaskInput := ⟨"BLK", 12000, 8, 19723, 19726⟩

/-- The baseline table generated from `sampleInput`. -/
def sampleRows : List BaselineRow := [mkBaselineRow sampleInput]

/-- A daily progress table summing to 120 % for task BLK. -/
def overflowDailyRecs : List DRec := [⟨"BLK", 19723, 60⟩, ⟨"BLK", 19724, 60⟩]

/-- A weekly progress table summing to 140 % for task BLK (allowed). -/
def sampleWeeklyRecs : List WRec := [⟨"BLK", 19723, 19724, 70⟩, ⟨"BLK", 19725, 19726, 70⟩]

/-! ## Basic lemmas about the calendar primitives -/

@[simp] theorem mem_firstKeys {α : Type} [DecidableEq α] {x : α} :
    ∀ {l : List α}, x ∈ firstKeys l ↔ x ∈ l := by
  intro l
  induction l with
  | nil => simp [firstKeys]
  | cons k ks ih =>
    by_cases hx : x = k
    · simp [firstKeys, hx]
    · simp [firstKeys, hx, ih]

theorem mem_dateRange {s e d : ℤ} : d ∈ dateRange s e ↔ s ≤ d ∧ d ≤ e := by
  unfold dateRange
  simp only [List.mem_map, List.mem_range]
  constructor
  · rintro ⟨i, hi, rfl⟩
    omega
  · rintro ⟨h1, h2⟩
    exact ⟨(d - s).toNat, by omega, by omega⟩

theorem nodup_dateRange (s e : ℤ) : (dateRange s e).Nodup := by
  unfold dateRange
  refine List.Nodup.map ?_ (List.nodup_range _)
  intro a b h
  simp only at h
  omega

theorem length_dateRange (s e : ℤ) : (dateRange s e).length = (e - s + 1).toNat := by
  unfold dateRange
  simp

theorem mem_workingDates {W : List ℤ} {s e d : ℤ} :
    d ∈ workingDates W s e ↔ (s ≤ d ∧ d ≤ e) ∧ weekday d ∈ W := by
  unfold workingDates
  rw [List.mem_filter, mem_dateRange]
  simp

/-! ## Rounding error bounds -/

theorem roundHalfEven_sub_le (q : ℚ) : |(roundHalfEven q : ℚ) - q| ≤ 1 / 2 := by
  have hdZ : (0 : ℤ) < (q.den : ℤ) := by exact_mod_cast q.pos
  have hden : (0 : ℚ) < (q.den : ℚ) := by exact_mod_cast q.pos
  have hdne : (q.den : ℚ) ≠ 0 := ne_of_gt hden
  set f : ℤ := q.num / (q.den : ℤ) with hf
  set r : ℤ := q.num % (q.den : ℤ) with hr
  have hdm : (q.den : ℤ) * f + r = q.num := Int.ediv_add_emod _ _
  have hr0 : (0 : ℤ) ≤ r := Int.emod_nonneg _ (ne_of_gt hdZ)
  have hrd : r < (q.den : ℤ) := Int.emod_lt_of_pos _ hdZ
  have hnum : (q.num : ℚ) = q * (q.den : ℚ) := (div_eq_iff hdne).mp (Rat.num_div_den q)
  have hq : q * (q.den : ℚ) = (f : ℚ) * (q.den : ℚ) + (r : ℚ) := by
    have h := congrArg (fun z : ℤ => (z : ℚ)) hdm
    push_cast at h
    linarith [hnum, h]
  have hqf : q - (f : ℚ) = (r : ℚ) / (q.den : ℚ) := by
    rw [eq_div_iff hdne, sub_mul]
    linarith [hq]
  have hrq0 : (0 : ℚ) ≤ (r : ℚ) / (q.den : ℚ) :=
    div_nonneg (by exact_mod_cast hr0) (le_of_lt hden)
  have hrQ : ((r : ℤ) : ℚ) < (q.den : ℚ) := by exact_mod_cast hrd
  unfold roundHalfEven
  rw [← hf, ← hr]
  split_ifs with h1 h2 h3
  · have hlt : (r : ℚ) / (q.den : ℚ) < 1 / 2 := by
      rw [div_lt_iff₀ hden]
      have h1Q : 2 * (r : ℚ) < (q.den : ℚ) := by exact_mod_cast h1
      linarith
    rw [abs_sub_comm, hqf, abs_of_nonneg hrq0]
    exact le_of_lt hlt
  · have hgt : 1 / 2 < (r : ℚ) / (q.den : ℚ) := by
      rw [lt_div_iff₀ hden]
      have h2Q : (q.den : ℚ) < 2 * (r : ℚ) := by exact_mod_cast h2
      linarith
    have hlt1 : (r : ℚ) / (q.den : ℚ) < 1 := by
      rw [div_lt_one hden]
      exact hrQ
    rw [abs_le]
    push_cast
    constructor <;> linarith [hqf, hgt, hlt1]
  all_goals
    have h2r : 2 * r = (q.den : ℤ) := by omega
  all_goals
    have heq : (r : ℚ) / (q.den : ℚ) = 1 / 2 := by
      rw [div_eq_iff hdne]
      have hQ : 2 * (r : ℚ) = (q.den : ℚ) := by exact_mod_cast h2r
      linarith
  all_goals rw [abs_le]
  · exact ⟨by linarith [hqf, heq], by linarith [hqf, heq]⟩
  · push_cast
    exact ⟨by linarith [hqf, heq], by linarith [hqf, heq]⟩

theorem round2_sub_le (q : ℚ) : |round2 q - q| ≤ 1 / 200 := by
  unfold round2
  have h := roundHalfEven_sub_le (q * 100)
  have hrw : (roundHalfEven (q * 100) : ℚ) / 100 - q =
      ((roundHalfEven (q * 100) : ℚ) - q * 100) / 100 := by ring
  rw [hrw, abs_div, abs_of_pos (by norm_num : (0 : ℚ) < 100)]
  linarith [h]

/-! ## List and curve helper lemmas -/

theorem foldl_id {α β : Type} (c : α) (l : List β) : l.foldl (fun x _ => x) c = c := by
  induction l generalizing c with
  | nil => rfl
  | cons x xs ih => exact ih c

theorem foldl_map_fuse {α β : Type} (g : β → α → α) (rs : List β) (c : List α) :
    rs.foldl (fun cur r => cur.map (g r)) c =
      c.map (fun p => rs.foldl (fun q r => g r q) p) := by
  induction rs generalizing c with
  | nil => simp
  | cons r rs ih =>
    simp only [List.foldl_cons]
    rw [ih, List.map_map]
    rfl

theorem sum_map_ite (l : List ℤ) (P : ℤ → Prop) [DecidablePred P] (c : ℚ) :
    (l.map (fun d => if P d then c else 0)).sum =
      ((l.filter (fun d => P d)).length : ℚ) * c := by
  induction l with
  | nil => simp
  | cons d ds ih =>
    by_cases h : P d
    · simp [h, ih, List.filter_cons]
      ring
    · simp [h, ih, List.filter_cons]

theorem sum_map_const {α : Type} (l : List α) (c : ℚ) :
    (l.map (fun _ => c)).sum = (l.length : ℚ) * c := by
  induction l with
  | nil => simp
  | cons x xs ih =>
    simp only [List.map_cons, List.sum_cons, List.length_cons, ih]
    push_cast
    ring

theorem curveTotal_map (l : List ℤ) (v : ℤ → ℚ) :
    curveTotal (l.map (fun d => ⟨d, v d⟩)) = (l.map v).sum := by
  unfold curveTotal
  rw [List.map_map]
  rfl

theorem curveTotal_map_mul (c : List Pt) (x : ℚ) :
    curveTotal (c.map (fun p => ⟨p.date, p.mp * x⟩)) = curveTotal c * x := by
  unfold curveTotal
  induction c with
  | nil => simp
  | cons p ps ih =>
    simp only [List.map_cons, List.sum_cons, List.map_map] at ih ⊢
    rw [ih]
    ring

theorem phaseB_map (required : ℚ) (c : List Pt) :
    phaseB required c =
      c.map (fun p => ⟨p.date, p.mp * (if 0 < curveTotal c then required / curveTotal c else 1)⟩) := by
  simp only [phaseB]

theorem curveTotal_phaseB (required : ℚ) (c : List Pt) (h : 0 < curveTotal c) :
    curveTotal (phaseB required c) = required := by
  rw [phaseB_map, if_pos h, curveTotal_map_mul]
  field_simp

theorem foldl_point_daily (planned : ℚ) (a : ℤ → ℚ) :
    ∀ (ds : List ℤ) (p : Pt), ds.Nodup →
      ((ds.map (fun d => (d, a d))).foldl
        (fun q (r : ℤ × ℚ) => if q.date = r.1 then ⟨q.date, q.mp * (r.2 / planned)⟩ else q) p
       = if p.date ∈ ds then ⟨p.date, p.mp * (a p.date / planned)⟩ else p) := by
  intro ds
  induction ds with
  | nil =>
    intro p _
    simp
  | cons d ds ih =>
    intro p hnd
    rw [List.map_cons, List.foldl_cons]
    have hnd2 := (List.nodup_cons.mp hnd).2
    have hd_not : d ∉ ds := (List.nodup_cons.mp hnd).1
    by_cases hpd : p.date = d
    · simp only [if_pos hpd]
      rw [ih _ hnd2]
      simp [hpd, hd_not]
    · simp only [if_neg hpd]
      rw [ih p hnd2]
      simp [List.mem_cons, hpd]

/-- Pointwise description of the daily Phase A refinement: with a positive
planned share every date's row is scaled by `actual / planned`; otherwise the
curve is untouched. -/
theorem phaseACurveDaily_eq (t : Task) (P : ℚ) (W : List ℤ) (a : ℤ → ℚ) :
    phaseACurveDaily t P W a =
      (dateRange t.startD t.endD).map (fun d =>
        ⟨d, if 0 < plannedDaily W t.startD t.endD then
              adjManDays t P / (durationDays t : ℚ) * (a d / plannedDaily W t.startD t.endD)
            else adjManDays t P / (durationDays t : ℚ)⟩) := by
  unfold phaseACurveDaily baseCurve dailyRecs applyDaily
  by_cases hp : 0 < plannedDaily W t.startD t.endD
  · simp only [if_pos hp]
    rw [foldl_map_fuse, List.map_map]
    apply List.map_congr_left
    intro d hd
    simp only [Function.comp]
    rw [foldl_point_daily (plannedDaily W t.startD t.endD) a _ _ (nodup_dateRange _ _)]
    simp [hd]
  · simp only [if_neg hp]
    rw [foldl_id]


/-! ## Helper lemmas about the report-generation actions -/

theorem generateInitialReport_cons (t : TaskInput) (ts : List TaskInput) :
    generateInitialReport (t :: ts) =
      if t.boq ≤ 0 then .error (.invalidInput t.code)
      else if t.endD < t.startD then .error (.invalidDateRange t.code)
      else match generateInitialReport ts with
           | .error err => .error err
           | .ok rest => .ok (mkBaselineRow t :: rest) := rfl

theorem generateInitialReport_error_iff (tasks : List TaskInput) :
    (∃ err, generateInitialReport tasks = .error err) ↔
      ∃ t ∈ tasks, t.boq ≤ 0 ∨ t.endD < t.startD := by
  induction tasks with
  | nil => simp [generateInitialReport]
  | cons t ts ih =>
    rw [generateInitialReport_cons]
    by_cases h1 : t.boq ≤ 0
    · rw [if_pos h1]
      constructor
      · intro _
        exact ⟨t, List.mem_cons_self t ts, Or.inl h1⟩
      · intro _
        exact ⟨_, rfl⟩
    · rw [if_neg h1]
      by_cases h2 : t.endD < t.startD
      · rw [if_pos h2]
        constructor
        · intro _
          exact ⟨t, List.mem_cons_self t ts, Or.inr h2⟩
        · intro _
          exact ⟨_, rfl⟩
      · rw [if_neg h2]
        cases hrec : generateInitialReport ts with
        | error e2 =>
          constructor
          · intro _
            obtain ⟨t0, ht0, hv⟩ := ih.mp ⟨e2, hrec⟩
            exact ⟨t0, List.mem_cons_of_mem t ht0, hv⟩
          · intro _
            exact ⟨e2, rfl⟩
        | ok rest =>
          constructor
          · rintro ⟨err, herr⟩
            exact absurd herr (by simp)
          · rintro ⟨t0, ht0, hv⟩
            rcases List.mem_cons.mp ht0 with rfl | ht0s
            · rcases hv with hv | hv
              · exact absurd hv h1
              · exact absurd hv h2
            · obtain ⟨e2, he2⟩ := ih.mpr ⟨t0, ht0s, hv⟩
              rw [hrec] at he2
              exact absurd he2 (by simp)

theorem generateInitialReport_error_mem (tasks : List TaskInput) (err : ReportError)
    (h : generateInitialReport tasks = .error err) :
    ∃ t ∈ tasks, (err = .invalidInput t.code ∧ t.boq ≤ 0) ∨
      (err = .invalidDateRange t.code ∧ t.endD < t.startD) := by
  induction tasks with
  | nil => exact absurd h (by simp [generateInitialReport])
  | cons t ts ih =>
    rw [generateInitialReport_cons] at h
    by_cases h1 : t.boq ≤ 0
    · rw [if_pos h1] at h
      injection h with h'
      exact ⟨t, List.mem_cons_self t ts, Or.inl ⟨h'.symm, h1⟩⟩
    · rw [if_neg h1] at h
      by_cases h2 : t.endD < t.startD
      · rw [if_pos h2] at h
        injection h with h'
        exact ⟨t, List.mem_cons_self t ts, Or.inr ⟨h'.symm, h2⟩⟩
      · rw [if_neg h2] at h
        cases hrec : generateInitialReport ts with
        | error e2 =>
          rw [hrec] at h
          injection h with h'
          obtain ⟨t0, ht0, hv⟩ := ih (h' ▸ hrec)
          exact ⟨t0, List.mem_cons_of_mem t ht0, hv⟩
        | ok rest =>
          rw [hrec] at h
          exact absurd h (by simp)

theorem generateFinalDaily_overflow (rows : List BaselineRow) (P : String → ℚ)
    (recs : List DRec) (W : List ℤ)
    (h : ∃ pr ∈ dailyEffective recs, 100 < pr.2) :
    ∃ c, (generateFinalDaily rows P recs W).2 = .error (.progressOverflow c) ∧
      (∃ pr ∈ dailyEffective recs, pr.1 = c ∧ 100 < pr.2) ∧
      (generateFinalDaily rows P recs W).1 =
        [Stage.buildCurve, Stage.dailyRefine, Stage.perTaskScaling, Stage.rounding,
         Stage.overflowCheck] := by
  obtain ⟨pr, hmem, hgt⟩ := h
  have hsome : ((dailyEffective recs).find? (fun pr => 100 < pr.2)).isSome := by
    rw [List.find?_isSome]
    exact ⟨pr, hmem, by simpa using hgt⟩
  obtain ⟨pr0, hfind⟩ := Option.isSome_iff_exists.mp hsome
  have hp0 : (100 : ℚ) < pr0.2 := by simpa using List.find?_some hfind
  have hm0 : pr0 ∈ dailyEffective recs := List.mem_of_find?_eq_some hfind
  refine ⟨pr0.1, ?_, ⟨pr0, hm0, rfl, hp0⟩, ?_⟩
  · simp only [generateFinalDaily]
    rw [hfind]
  · simp only [generateFinalDaily]
    rw [hfind]

/-! ## The claims -/

/-- C1: Conservation — for every task whose post-Phase-A curve total is
positive, the final adjusted curve (before display rounding) sums exactly to
that task's Adjusted Man-Days `man_days / (Progress % / 100)`, whatever
period-level actual percentages drove Phase A, in daily and weekly mode
alike. -/
theorem C1_conservation (t : Task) (P : ℚ) (W : List ℤ) (a : ℤ → ℚ) (aw : ℤ → ℚ) :
    (0 < curveTotal (phaseACurveDaily t P W a) →
      curveTotal (adjustedCurveDaily t P W a) = adjManDays t P) ∧
    (0 < curveTotal (phaseACurveWeekly t P W aw) →
      curveTotal (adjustedCurveWeekly t P W aw) = adjManDays t P) := by
  constructor
  · intro h
    exact curveTotal_phaseB _ _ h
  · intro h
    exact curveTotal_phaseB _ _ h

/-- Witness for C1 at the sample task over Jan 1–7 2024 with Mon–Sat working
days and all progress records at their defaults. -/
theorem C1_conservation_witness :
    curveTotal (adjustedCurveDaily sampleTaskWeek 100 sampleW
        (dailyDefault sampleW 19723 19729)) = adjManDays sampleTaskWeek 100 ∧
    curveTotal (adjustedCurveWeekly sampleTaskSpan 100 sampleW
        (fun _ => weeklyDefault sampleW 19723 19730)) = adjManDays sampleTaskSpan 100 :=
  ⟨(C1_conservation sampleTaskWeek 100 sampleW (dailyDefault sampleW 19723 19729)
      (fun _ => 0)).1 (by decide),
   (C1_conservation sampleTaskSpan 100 sampleW (fun _ => 0)
      (fun _ => weeklyDefault sampleW 19723 19730)).2 (by decide)⟩

/-- C3 as stated is false: a task whose `rate_per_manday` is negative (BOQ
and dates valid) sails through validation and produces a baseline row — the
`Generate Initial Report` loop never checks the rate. -/
theorem C3_counterexample :
    (⟨"T1", 5, -2, 19723, 19725⟩ : TaskInput).rate ≤ 0 ∧
    (0 : ℚ) < (⟨"T1", 5, -2, 19723, 19725⟩ : TaskInput).boq ∧
    (⟨"T1", 5, -2, 19723, 19725⟩ : TaskInput).startD ≤
      (⟨"T1", 5, -2, 19723, 19725⟩ : TaskInput).endD ∧
    (generateInitialReport [⟨"T1", 5, -2, 19723, 19725⟩]).isOk = true := by
  refine ⟨by norm_num, by norm_num, by norm_num, ?_⟩
  rfl

/-- C3 (amended): report generation fails exactly when some selected task has
boq ≤ 0 (`InvalidInput`) or end < start (`InvalidDateRange`) — the rate is
never validated — the error names an offending task, and no baseline table is
produced on failure. -/
theorem C3_validation (tasks : List TaskInput) :
    ((∃ t ∈ tasks, t.boq ≤ 0 ∨ t.endD < t.startD) ↔
      ∃ err, generateInitialReport tasks = .error err) ∧
    (∀ err, generateInitialReport tasks = .error err →
      ∃ t ∈ tasks, (err = .invalidInput t.code ∧ t.boq ≤ 0) ∨
        (err = .invalidDateRange t.code ∧ t.endD < t.startD)) :=
  ⟨(generateInitialReport_error_iff tasks).symm, generateInitialReport_error_mem tasks⟩

/-- Witness for C3 (amended): a task with boq = 0 makes the action fail. -/
theorem C3_validation_witness :
    ∃ err, generateInitialReport [⟨"T2", 0, 8, 19723, 19725⟩] = .error err :=
  (C3_validation [⟨"T2", 0, 8, 19723, 19725⟩]).1.mp
    ⟨⟨"T2", 0, 8, 19723, 19725⟩, List.mem_cons_self _ _, Or.inl (by norm_num)⟩

/-- C7: every task that passes validation gets `man_days = boq / rate`
exactly, an inclusive duration `end - start + 1 ≥ 1`, and a uniform baseline
rate `man_days / duration_days` on every calendar date of its range,
ignoring the working-day calendar. -/
theorem C7_baseline : ∀ (tasks : List TaskInput) (rows : List BaselineRow),
    generateInitialReport tasks = .ok rows →
    ∀ r ∈ rows,
      r.man_days = r.boq / r.rate ∧
      r.duration_days = r.endD - r.startD + 1 ∧
      1 ≤ r.duration_days ∧
      r.manpower = r.man_days / (r.duration_days : ℚ) ∧
      baselineTimeline [r] =
        (dateRange r.startD r.endD).map
          (fun d => (d, r.man_days / (r.duration_days : ℚ))) := by
  intro tasks
  induction tasks with
  | nil =>
    intro rows hok r hr
    simp only [generateInitialReport] at hok
    injection hok with h'
    subst h'
    exact absurd hr (by simp)
  | cons t ts ih =>
    intro rows hok r hr
    rw [generateInitialReport_cons] at hok
    by_cases h1 : t.boq ≤ 0
    · rw [if_pos h1] at hok
      exact absurd hok (by simp)
    rw [if_neg h1] at hok
    by_cases h2 : t.endD < t.startD
    · rw [if_pos h2] at hok
      exact absurd hok (by simp)
    rw [if_neg h2] at hok
    cases hrec : generateInitialReport ts with
    | error e2 =>
      rw [hrec] at hok
      exact absurd hok (by simp)
    | ok rest =>
      rw [hrec] at hok
      injection hok with h'
      subst h'
      rcases List.mem_cons.mp hr with rfl | hr2
      · refine ⟨rfl, rfl, ?_, rfl, ?_⟩
        · show 1 ≤ t.endD - t.startD + 1
          omega
        · simp [baselineTimeline, mkBaselineRow, calculate_baseline]
      · exact ih rest hrec r hr2

/-- Witness for C7 at the sample input. -/
theorem C7_baseline_witness :
    (mkBaselineRow sampleInput).man_days =
        (mkBaselineRow sampleInput).boq / (mkBaselineRow sampleInput).rate ∧
    1 ≤ (mkBaselineRow sampleInput).duration_days :=
  have h := C7_baseline [sampleInput] [mkBaselineRow sampleInput] rfl
    (mkBaselineRow sampleInput) (by simp)
  ⟨h.1, h.2.2.1⟩



theorem mem_weekBuckets {ds : List ℤ} {k : ℤ} {l : List ℤ} :
    (k, l) ∈ weekBuckets ds ↔
      k ∈ ds.map isoWeek ∧ l = ds.filter (fun d => isoWeek d = k) := by
  unfold weekBuckets
  constructor
  · intro h
    obtain ⟨k0, hk0, heq⟩ := List.mem_map.mp h
    cases heq
    exact ⟨mem_firstKeys.mp hk0, rfl⟩
  · rintro ⟨hk, rfl⟩
    exact List.mem_map.mpr ⟨k, mem_firstKeys.mpr hk, rfl⟩

/-- C4: the effective-progress asymmetry — a daily report aborts with
`ProgressOverflow` naming a task whenever some task's daily percentages sum
over 100, while a weekly report never errors and feeds any weekly sum,
however large, into `Balance BOQ = boq * (1 - effective/100)`, which goes
negative at the spec's 140 % scenario. -/
theorem C4_overflow_asymmetry :
    (∀ (rows : List BaselineRow) (P : String → ℚ) (recs : List DRec) (W : List ℤ),
      (∃ pr ∈ dailyEffective recs, 100 < pr.2) →
      ∃ c, (generateFinalDaily rows P recs W).2 = .error (.progressOverflow c) ∧
        ∃ pr ∈ dailyEffective recs, pr.1 = c ∧ 100 < pr.2) ∧
    (∀ (rows : List BaselineRow) (P : String → ℚ) (wrecs : List WRec) (W : List ℤ),
      ∃ rep, (generateFinalWeekly rows P wrecs W).2 = .ok rep ∧
        rep.balance = rows.map
          (fun r => (r.code, r.boq * (1 - lookupEff (weeklyEffective wrecs) r.code / 100)))) ∧
    (lookupEff (weeklyEffective sampleWeeklyRecs) "BLK" = 140 ∧
      balanceBOQ sampleRows (weeklyEffective sampleWeeklyRecs) = [("BLK", -4800)]) := by
  refine ⟨?_, ?_, by decide, by decide⟩
  · intro rows P recs W h
    obtain ⟨c, hc1, hc2, _⟩ := generateFinalDaily_overflow rows P recs W h
    exact ⟨c, hc1, hc2⟩
  · intro rows P wrecs W
    exact ⟨_, rfl, rfl⟩

/-- Witness for C4 at the sample baseline with a 120 % daily table. -/
theorem C4_overflow_asymmetry_witness :
    ∃ c, (generateFinalDaily sampleRows (fun _ => 100) overflowDailyRecs allWeekdays).2 =
        .error (.progressOverflow c) ∧
      ∃ pr ∈ dailyEffective overflowDailyRecs, pr.1 = c ∧ 100 < pr.2 :=
  C4_overflow_asymmetry.1 sampleRows (fun _ => 100) overflowDailyRecs allWeekdays
    ⟨("BLK", 120), by decide, by norm_num⟩

/-- C5 as stated is false: on a daily overflow the action does abort with the
overflow error, but its stage trace shows the whole downstream curve
computation (build, daily refine, per-task rescale, rounding) ran before the
overflow check — detection is not at a validation boundary ahead of
downstream computation. -/
theorem C5_counterexample :
    (generateFinalDaily sampleRows (fun _ => 100) overflowDailyRecs allWeekdays).1 =
      [Stage.buildCurve, Stage.dailyRefine, Stage.perTaskScaling, Stage.rounding,
       Stage.overflowCheck] ∧
    (generateFinalDaily sampleRows (fun _ => 100) overflowDailyRecs allWeekdays).2 =
      .error (.progressOverflow "BLK") := by
  constructor
  · decide
  · rfl

/-- C5 (amended): `InvalidInput` and `InvalidDateRange` abort the initial
report before any baseline table exists, and `ProgressOverflow` aborts the
final report with no report produced — but the overflow is detected only
after the adjusted-curve stages (build, refine, rescale, round) have all
executed, not before downstream computation. -/
theorem C5_propagation (tasks : List TaskInput) (rows : List BaselineRow)
    (P : String → ℚ) (recs : List DRec) (W : List ℤ) :
    ((∃ t ∈ tasks, t.boq ≤ 0 ∨ t.endD < t.startD) →
      ∃ err, generateInitialReport tasks = .error err) ∧
    ((∃ pr ∈ dailyEffective recs, 100 < pr.2) →
      (∃ c, (generateFinalDaily rows P recs W).2 = .error (.progressOverflow c)) ∧
      (generateFinalDaily rows P recs W).1 =
        [Stage.buildCurve, Stage.dailyRefine, Stage.perTaskScaling, Stage.rounding,
         Stage.overflowCheck]) := by
  constructor
  · intro h
    exact (generateInitialReport_error_iff tasks).mpr h
  · intro h
    obtain ⟨c, hc1, _, htr⟩ := generateFinalDaily_overflow rows P recs W h
    exact ⟨⟨c, hc1⟩, htr⟩

/-- Witness for C5 (amended). -/
theorem C5_propagation_witness :
    (∃ err, generateInitialReport [⟨"T2", 0, 8, 19723, 19725⟩] = .error err) ∧
    (∃ c, (generateFinalDaily sampleRows (fun _ => 100) overflowDailyRecs allWeekdays).2 =
        .error (.progressOverflow c)) :=
  ⟨(C5_propagation [⟨"T2", 0, 8, 19723, 19725⟩] sampleRows (fun _ => 100) overflowDailyRecs
      allWeekdays).1 ⟨⟨"T2", 0, 8, 19723, 19725⟩, List.mem_cons_self _ _, Or.inl (by norm_num)⟩,
   ((C5_propagation [] sampleRows (fun _ => 100) overflowDailyRecs allWeekdays).2
      ⟨("BLK", 120), by decide, by norm_num⟩).1⟩

/-- C2 as stated is false: Thu 2024-01-04 (ISO 2024-W01) and Mon 2024-12-30
(ISO 2025-W01) are working dates of one range that share the ISO week number
1 with different ISO years, yet the bucket loop — keyed by week number only —
puts them in the same bucket. -/
theorem C2_counterexample :
    19726 ∈ workingDates [0, 3] 19726 20087 ∧
    20087 ∈ workingDates [0, 3] 19726 20087 ∧
    isoWeek 19726 = isoWeek 20087 ∧
    isoYear 19726 ≠ isoYear 20087 ∧
    ∃ k l, (k, l) ∈ weekBuckets (workingDates [0, 3] 19726 20087) ∧
      19726 ∈ l ∧ 20087 ∈ l := by
  have h1 : (19726 : ℤ) ∈ workingDates [0, 3] 19726 20087 := by
    rw [mem_workingDates]
    refine ⟨⟨by norm_num, by norm_num⟩, by decide⟩
  have h2 : (20087 : ℤ) ∈ workingDates [0, 3] 19726 20087 := by
    rw [mem_workingDates]
    refine ⟨⟨by norm_num, by norm_num⟩, by decide⟩
  refine ⟨h1, h2, by decide, by decide,
    1, (workingDates [0, 3] 19726 20087).filter (fun d => isoWeek d = 1), ?_, ?_, ?_⟩
  · exact mem_weekBuckets.mpr ⟨List.mem_map.mpr ⟨19726, h1, by decide⟩, rfl⟩
  · exact List.mem_filter.mpr ⟨h1, by decide⟩
  · exact List.mem_filter.mpr ⟨h2, by decide⟩

/-- C2 (amended): the bucket loop keys weekly buckets by the ISO week number
alone, so any two working dates of a task that share an ISO week number land
in the same bucket — even when their ISO years differ. -/
theorem C2_weekly_bucket (W : List ℤ) (s e d1 d2 : ℤ)
    (h1 : d1 ∈ workingDates W s e) (h2 : d2 ∈ workingDates W s e)
    (hw : isoWeek d1 = isoWeek d2) :
    ∃ l, (isoWeek d1, l) ∈ weekBuckets (workingDates W s e) ∧ d1 ∈ l ∧ d2 ∈ l := by
  refine ⟨(workingDates W s e).filter (fun d => isoWeek d = isoWeek d1), ?_, ?_, ?_⟩
  · exact mem_weekBuckets.mpr ⟨List.mem_map.mpr ⟨d1, h1, rfl⟩, rfl⟩
  · exact List.mem_filter.mpr ⟨h1, by simp⟩
  · exact List.mem_filter.mpr ⟨h2, by simp [hw]⟩

/-- Witness for C2 (amended) at the cross-year pair of working dates. -/
theorem C2_weekly_bucket_witness :
    ∃ l, (isoWeek 19726, l) ∈ weekBuckets (workingDates [0, 3] 19726 20087) ∧
      (19726 : ℤ) ∈ l ∧ (20087 : ℤ) ∈ l :=
  C2_weekly_bucket [0, 3] 19726 20087 19726 20087
    (by rw [mem_workingDates]; exact ⟨⟨by norm_num, by norm_num⟩, by decide⟩)
    (by rw [mem_workingDates]; exact ⟨⟨by norm_num, by norm_num⟩, by decide⟩)
    (by decide)



theorem filter_mem_workingDates (W : List ℤ) (s e : ℤ) :
    (dateRange s e).filter (fun d => d ∈ workingDates W s e) = workingDates W s e := by
  unfold workingDates
  refine List.filter_congr ?_
  intro d hd
  simp [List.mem_filter, hd]

theorem dailyDefaultSum_eq (W : List ℤ) (s e : ℤ) :
    dailyDefaultSum W s e =
      (wcount W s e : ℚ) *
        (if 0 < wcount W s e then round2 (100 / (wcount W s e : ℚ)) else 0) := by
  unfold dailyDefaultSum dailyDefault
  rw [sum_map_ite (dateRange s e) (fun d => d ∈ workingDates W s e) _,
    filter_mem_workingDates]
  rfl

/-- C8 as stated is false: over Mon 2024-01-01 – Sun 2024-02-25 with Mon–Sat
working there are 48 working days, each daily default is
`round(100/48, 2) = 2.08`, and the daily defaults sum to 99.84 = 2496/25 —
off 100 by 0.16, outside the claimed ±0.1. -/
theorem C8_counterexample :
    wcount sampleW 19723 19778 = 48 ∧
    dailyDefaultSum sampleW 19723 19778 = 2496 / 25 ∧
    ¬ |dailyDefaultSum sampleW 19723 19778 - 100| ≤ 1 / 10 := by
  have h : dailyDefaultSum sampleW 19723 19778 = 2496 / 25 := by decide
  refine ⟨by decide, h, ?_⟩
  rw [h]
  intro hc
  rw [abs_le] at hc
  norm_num at hc

/-- C8 (amended): each daily default is the rounded share `round2 (100 / w)`
on working dates and 0 elsewhere, each weekly default is `round2 (100 / n)`,
and the auto-divided tables sum to 100 within ±(count / 200) — so within
±0.1 only when the count of periods is at most 20. -/
theorem C8_autodivision (W : List ℤ) (s e : ℤ) :
    (∀ d ∈ workingDates W s e,
      dailyDefault W s e d = round2 (100 / (wcount W s e : ℚ))) ∧
    (∀ d, d ∉ workingDates W s e → dailyDefault W s e d = 0) ∧
    (0 < numWeeks W s e → weeklyDefault W s e = round2 (100 / (numWeeks W s e : ℚ))) ∧
    (0 < wcount W s e → |dailyDefaultSum W s e - 100| ≤ (wcount W s e : ℚ) / 200) ∧
    (0 < numWeeks W s e → |weeklyDefaultSum W s e - 100| ≤ (numWeeks W s e : ℚ) / 200) := by
  refine ⟨?_, ?_, ?_, ?_, ?_⟩
  · intro d hd
    have hw : 0 < wcount W s e :=
      List.length_pos.mpr (List.ne_nil_of_mem hd)
    simp [dailyDefault, hd, hw]
  · intro d hd
    simp [dailyDefault, hd]
  · intro h
    simp [weeklyDefault, h]
  · intro h
    rw [dailyDefaultSum_eq, if_pos h]
    have hw : (0 : ℚ) < (wcount W s e : ℚ) := by exact_mod_cast h
    have hr := round2_sub_le (100 / (wcount W s e : ℚ))
    have hx : (wcount W s e : ℚ) * (100 / (wcount W s e : ℚ)) = 100 := by
      field_simp
    calc |(wcount W s e : ℚ) * round2 (100 / (wcount W s e : ℚ)) - 100|
        = |(wcount W s e : ℚ) *
            (round2 (100 / (wcount W s e : ℚ)) - 100 / (wcount W s e : ℚ))| := by
          rw [mul_sub, hx]
      _ = (wcount W s e : ℚ) *
            |round2 (100 / (wcount W s e : ℚ)) - 100 / (wcount W s e : ℚ)| := by
          rw [abs_mul, abs_of_pos hw]
      _ ≤ (wcount W s e : ℚ) * (1 / 200) :=
          mul_le_mul_of_nonneg_left hr (le_of_lt hw)
      _ = (wcount W s e : ℚ) / 200 := by ring
  · intro h
    have hsum : weeklyDefaultSum W s e = (numWeeks W s e : ℚ) * weeklyDefault W s e :=
      sum_map_const _ _
    rw [hsum]
    simp only [weeklyDefault, if_pos h]
    have hn : (0 : ℚ) < (numWeeks W s e : ℚ) := by exact_mod_cast h
    have hr := round2_sub_le (100 / (numWeeks W s e : ℚ))
    have hx : (numWeeks W s e : ℚ) * (100 / (numWeeks W s e : ℚ)) = 100 := by
      field_simp
    calc |(numWeeks W s e : ℚ) * round2 (100 / (numWeeks W s e : ℚ)) - 100|
        = |(numWeeks W s e : ℚ) *
            (round2 (100 / (numWeeks W s e : ℚ)) - 100 / (numWeeks W s e : ℚ))| := by
          rw [mul_sub, hx]
      _ = (numWeeks W s e : ℚ) *
            |round2 (100 / (numWeeks W s e : ℚ)) - 100 / (numWeeks W s e : ℚ)| := by
          rw [abs_mul, abs_of_pos hn]
      _ ≤ (numWeeks W s e : ℚ) * (1 / 200) :=
          mul_le_mul_of_nonneg_left hr (le_of_lt hn)
      _ = (numWeeks W s e : ℚ) / 200 := by ring

/-- Witness for C8 (amended) at the 48-working-day range. -/
theorem C8_autodivision_witness :
    |dailyDefaultSum sampleW 19723 19778 - 100| ≤ (wcount sampleW 19723 19778 : ℚ) / 200 :=
  (C8_autodivision sampleW 19723 19778).2.2.2.1 (by decide)



theorem sum_map_mul (l : List ℤ) (v : ℤ → ℚ) (c : ℚ) :
    (l.map (fun d => v d * c)).sum = (l.map v).sum * c := by
  induction l with
  | nil => simp
  | cons x xs ih =>
    simp only [List.map_cons, List.sum_cons, ih]
    ring

theorem curveTotal_baseCurve (t : Task) (P : ℚ) (hd : t.startD ≤ t.endD) :
    curveTotal (baseCurve t P) = adjManDays t P := by
  unfold baseCurve
  rw [curveTotal_map, sum_map_const, length_dateRange]
  have hD : ((t.endD - t.startD + 1).toNat : ℚ) = ((durationDays t : ℤ) : ℚ) := by
    unfold durationDays
    have h := Int.toNat_of_nonneg (by omega : (0 : ℤ) ≤ t.endD - t.startD + 1)
    exact_mod_cast congrArg (fun z : ℤ => (z : ℚ)) h
  rw [hD]
  have hne : ((durationDays t : ℤ) : ℚ) ≠ 0 := by
    have h : (0 : ℤ) < durationDays t := by unfold durationDays; omega
    exact ne_of_gt (by exact_mod_cast h)
  field_simp

/-- Phase A at the auto-divided daily defaults: working dates are scaled by
`round2 (100 / w) / (100 / w)`, non-working dates go to 0. -/
theorem phaseACurveDaily_default (t : Task) (P : ℚ) (W : List ℤ)
    (hw : 0 < wcount W t.startD t.endD) :
    phaseACurveDaily t P W (dailyDefault W t.startD t.endD) =
      (dateRange t.startD t.endD).map (fun d =>
        ⟨d, if weekday d ∈ W then
              adjManDays t P / (durationDays t : ℚ) *
                (round2 (100 / (wcount W t.startD t.endD : ℚ)) /
                  plannedDaily W t.startD t.endD)
            else 0⟩) := by
  have hwQ : (0 : ℚ) < (wcount W t.startD t.endD : ℚ) := by exact_mod_cast hw
  have hp : 0 < plannedDaily W t.startD t.endD := by
    unfold plannedDaily
    rw [if_pos hw]
    positivity
  rw [phaseACurveDaily_eq]
  simp only [if_pos hp]
  apply List.map_congr_left
  intro d hd
  by_cases hwd : weekday d ∈ W
  · have hmem : d ∈ workingDates W t.startD t.endD :=
      mem_workingDates.mpr ⟨mem_dateRange.mp hd, hwd⟩
    simp [dailyDefault, hmem, hw, hwd]
  · have hmem : d ∉ workingDates W t.startD t.endD :=
      fun hmem => hwd (mem_workingDates.mp hmem).2
    simp [dailyDefault, hmem, hwd]

/-- The full daily pipeline at the auto-divided defaults, when the post-Phase-A
total is positive. -/
theorem adjustedCurveDaily_default (t : Task) (P : ℚ) (W : List ℤ)
    (hw : 0 < wcount W t.startD t.endD)
    (htot : 0 < curveTotal (phaseACurveDaily t P W (dailyDefault W t.startD t.endD))) :
    adjustedCurveDaily t P W (dailyDefault W t.startD t.endD) =
      (dateRange t.startD t.endD).map (fun d =>
        ⟨d, (if weekday d ∈ W then
               adjManDays t P / (durationDays t : ℚ) *
                 (round2 (100 / (wcount W t.startD t.endD : ℚ)) /
                   plannedDaily W t.startD t.endD)
             else 0) *
            (adjManDays t P /
              curveTotal (phaseACurveDaily t P W (dailyDefault W t.startD t.endD)))⟩) := by
  unfold adjustedCurveDaily
  rw [phaseB_map, if_pos htot]
  generalize adjManDays t P /
    curveTotal (phaseACurveDaily t P W (dailyDefault W t.startD t.endD)) = S
  rw [phaseACurveDaily_default t P W hw, List.map_map]
  apply List.map_congr_left
  intro d hd
  rfl

/-- C6 as stated is false: at the all-default state (P = 100) over
Mon Jan 1 – Sun Jan 7 2024 with Mon–Sat working, Phase A is not the identity
(the Sunday's factor is 0, the working factors are 16.67/(100/6) ≠ 1) and the
final curve is 0 on the Sunday instead of the uniform 1500/7. -/
theorem C6_counterexample :
    phaseACurveDaily sampleTaskWeek 100 sampleW (dailyDefault sampleW 19723 19729) ≠
      baseCurve sampleTaskWeek 100 ∧
    adjustedCurveDaily sampleTaskWeek 100 sampleW (dailyDefault sampleW 19723 19729) ≠
      (dateRange 19723 19729).map
        (fun d => ⟨d, manDays sampleTaskWeek / (durationDays sampleTaskWeek : ℚ)⟩) := by
  constructor
  · decide
  · decide

/-- C6 (amended): at the all-default state with task-level Progress % = 100,
if additionally every date of the range is a working day and the rounded
share `round2 (100 / w)` equals `100 / w` exactly, then Phase A is the
identity (every factor is 1) and the final curve is the uniform baseline
`man_days / duration_days` on every date. -/
theorem C6_idempotence (t : Task) (W : List ℤ)
    (hboq : 0 < t.boq) (hrate : 0 < t.rate) (hd : t.startD ≤ t.endD)
    (hall : ∀ d ∈ dateRange t.startD t.endD, weekday d ∈ W)
    (hexact : round2 (100 / (wcount W t.startD t.endD : ℚ)) =
      100 / (wcount W t.startD t.endD : ℚ)) :
    phaseACurveDaily t 100 W (dailyDefault W t.startD t.endD) = baseCurve t 100 ∧
    adjustedCurveDaily t 100 W (dailyDefault W t.startD t.endD) =
      (dateRange t.startD t.endD).map
        (fun d => ⟨d, manDays t / (durationDays t : ℚ)⟩) := by
  have hwd : workingDates W t.startD t.endD = dateRange t.startD t.endD := by
    unfold workingDates
    exact List.filter_eq_self.mpr (fun d hdm => by simpa using hall d hdm)
  have hlen : 0 < (dateRange t.startD t.endD).length := by
    rw [length_dateRange]
    omega
  have hw : 0 < wcount W t.startD t.endD := by
    unfold wcount
    rw [hwd]
    exact hlen
  have hplan : plannedDaily W t.startD t.endD = 100 / (wcount W t.startD t.endD : ℚ) := by
    unfold plannedDaily
    rw [if_pos hw]
  have hA : phaseACurveDaily t 100 W (dailyDefault W t.startD t.endD) = baseCurve t 100 := by
    rw [phaseACurveDaily_default t 100 W hw]
    unfold baseCurve
    apply List.map_congr_left
    intro d hdm
    have hwdm : weekday d ∈ W := hall d hdm
    rw [if_pos hwdm, hexact, hplan]
    have hwQ : (0 : ℚ) < (wcount W t.startD t.endD : ℚ) := by exact_mod_cast hw
    have hq0 : (100 : ℚ) / (wcount W t.startD t.endD : ℚ) ≠ 0 := by positivity
    rw [div_self hq0, mul_one]
  refine ⟨hA, ?_⟩
  unfold adjustedCurveDaily
  rw [hA]
  have hadj : adjManDays t 100 = manDays t := by
    unfold adjManDays
    norm_num
  have hmd : manDays t ≠ 0 := by
    have : 0 < manDays t := by
      unfold manDays
      exact div_pos hboq hrate
    exact ne_of_gt this
  have htot : curveTotal (baseCurve t 100) = adjManDays t 100 := curveTotal_baseCurve t 100 hd
  have hpos : 0 < curveTotal (baseCurve t 100) := by
    rw [htot, hadj]
    unfold manDays
    exact div_pos hboq hrate
  rw [phaseB_map, if_pos hpos, htot]
  unfold baseCurve
  rw [List.map_map]
  apply List.map_congr_left
  intro d hdm
  show (⟨d, adjManDays t 100 / (durationDays t : ℚ) *
    (adjManDays t 100 / adjManDays t 100)⟩ : Pt) =
    ⟨d, manDays t / (durationDays t : ℚ)⟩
  rw [hadj, div_self hmd, mul_one]

/-- Witness for C6 (amended): 4 all-working days, `round2 25 = 25`. -/
theorem C6_idempotence_witness :
    adjustedCurveDaily ⟨12000, 8, 19723, 19726⟩ 100 allWeekdays
        (dailyDefault allWeekdays 19723 19726) =
      (dateRange 19723 19726).map
        (fun d => ⟨d, manDays ⟨12000, 8, 19723, 19726⟩ /
          (durationDays ⟨12000, 8, 19723, 19726⟩ : ℚ)⟩) :=
  (C6_idempotence ⟨12000, 8, 19723, 19726⟩ allWeekdays (by norm_num) (by norm_num)
    (by norm_num) (by decide) (by decide)).2

/-- C9: in Daily Report mode at the auto-divided defaults, every non-working
date of a task with at least one working date ends at exactly 0 in the final
adjusted curve, every working date ends strictly positive, and the final
curve is not uniform as soon as the range contains a non-working date. -/
theorem C9_nonworking_zero (t : Task) (P : ℚ) (W : List ℤ)
    (hboq : 0 < t.boq) (hrate : 0 < t.rate) (hP : 0 < P)
    (hw : 0 < wcount W t.startD t.endD)
    (hq : 0 < round2 (100 / (wcount W t.startD t.endD : ℚ))) :
    (∀ p ∈ adjustedCurveDaily t P W (dailyDefault W t.startD t.endD),
      (weekday p.date ∉ W → p.mp = 0) ∧ (weekday p.date ∈ W → 0 < p.mp)) ∧
    ((∃ d ∈ dateRange t.startD t.endD, weekday d ∉ W) →
      ¬ ∃ v : ℚ, ∀ p ∈ adjustedCurveDaily t P W (dailyDefault W t.startD t.endD),
        p.mp = v) := by
  have hse : t.startD ≤ t.endD := by
    have h1 : 0 < (dateRange t.startD t.endD).length :=
      lt_of_lt_of_le hw (List.length_filter_le _ _)
    rw [length_dateRange] at h1
    omega
  have hDpos : (0 : ℚ) < ((durationDays t : ℤ) : ℚ) := by
    have h : (0 : ℤ) < durationDays t := by unfold durationDays; omega
    exact_mod_cast h
  have hadjpos : 0 < adjManDays t P := by
    unfold adjManDays manDays
    exact div_pos (div_pos hboq hrate) (by positivity)
  have hbase : 0 < adjManDays t P / (durationDays t : ℚ) := div_pos hadjpos hDpos
  have hwQ : (0 : ℚ) < (wcount W t.startD t.endD : ℚ) := by exact_mod_cast hw
  have hplanpos : 0 < plannedDaily W t.startD t.endD := by
    unfold plannedDaily
    rw [if_pos hw]
    positivity
  have hCpos : 0 < adjManDays t P / (durationDays t : ℚ) *
      (round2 (100 / (wcount W t.startD t.endD : ℚ)) / plannedDaily W t.startD t.endD) :=
    mul_pos hbase (div_pos hq hplanpos)
  have htoteq : curveTotal (phaseACurveDaily t P W (dailyDefault W t.startD t.endD)) =
      (wcount W t.startD t.endD : ℚ) *
        (adjManDays t P / (durationDays t : ℚ) *
          (round2 (100 / (wcount W t.startD t.endD : ℚ)) / plannedDaily W t.startD t.endD)) := by
    rw [phaseACurveDaily_default t P W hw, curveTotal_map,
      sum_map_ite (dateRange t.startD t.endD) (fun d => weekday d ∈ W) _]
    rfl
  have htot : 0 < curveTotal (phaseACurveDaily t P W (dailyDefault W t.startD t.endD)) := by
    rw [htoteq]
    exact mul_pos hwQ hCpos
  have hscl : 0 < adjManDays t P /
      curveTotal (phaseACurveDaily t P W (dailyDefault W t.startD t.endD)) :=
    div_pos hadjpos htot
  constructor
  · intro p hp
    rw [adjustedCurveDaily_default t P W hw htot] at hp
    obtain ⟨d, hd, rfl⟩ := List.mem_map.mp hp
    constructor
    · intro hnw
      show (if weekday d ∈ W then _ else 0) * _ = 0
      rw [if_neg hnw, zero_mul]
    · intro hwdm
      show 0 < (if weekday d ∈ W then _ else 0) * _
      rw [if_pos hwdm]
      exact mul_pos hCpos hscl
  · rintro ⟨d0, hd0, hnw⟩ ⟨v, hv⟩
    rw [adjustedCurveDaily_default t P W hw htot] at hv
    obtain ⟨dw, hdw⟩ := List.exists_mem_of_length_pos hw
    have hdwW : weekday dw ∈ W := (mem_workingDates.mp hdw).2
    have hdwR : dw ∈ dateRange t.startD t.endD :=
      mem_dateRange.mpr (mem_workingDates.mp hdw).1
    have h0 : (0 : ℚ) = v := by
      simpa [hnw] using hv _ (List.mem_map.mpr ⟨d0, hd0, rfl⟩)
    have hwv : 0 < v := by
      have h1 := hv _ (List.mem_map.mpr ⟨dw, hdwR, rfl⟩)
      simp only [if_pos hdwW] at h1
      rw [← h1]
      exact mul_pos hCpos hscl
    exact absurd h0.symm (ne_of_gt hwv)

/-- Witness for C9: the sample task's curve over Jan 1–7 2024 (Mon–Sat
working) is not uniform: Sunday Jan 7 is a non-working date of the range. -/
theorem C9_nonworking_zero_witness :
    ¬ ∃ v : ℚ, ∀ p ∈ adjustedCurveDaily sampleTaskWeek 100 sampleW
        (dailyDefault sampleW 19723 19729), p.mp = v :=
  (C9_nonworking_zero sampleTaskWeek 100 sampleW (by decide) (by decide) (by norm_num)
    (by decide) (by decide)).2 ⟨19729, by decide, by decide⟩

/-- C10 as stated is false in Weekly Report mode: over Mon Jan 1 – Mon Jan 8
2024 with Mon–Sat working, Sunday Jan 7 lies in no weekly span, so doubling
every weekly actual changes the final curve (Jan 7 falls from 187.5 to 100). -/
theorem C10_counterexample :
    0 < curveTotal (phaseACurveWeekly sampleTaskSpan 100 sampleW
        (fun _ => weeklyDefault sampleW 19723 19730)) ∧
    adjustedCurveWeekly sampleTaskSpan 100 sampleW
        (fun _ => 2 * weeklyDefault sampleW 19723 19730) ≠
      adjustedCurveWeekly sampleTaskSpan 100 sampleW
        (fun _ => weeklyDefault sampleW 19723 19730) := by
  constructor
  · decide
  · decide

/-- C10 (amended): in Daily Report mode, multiplying every daily actual by a
constant c > 0 leaves the final adjusted curve unchanged whenever the
post-Phase-A total is positive — the Phase B rescale cancels the uniform
scaling. (In weekly mode this fails for dates outside every weekly span.) -/
theorem C10_scaling_invariance (t : Task) (P : ℚ) (W : List ℤ) (a : ℤ → ℚ) (c : ℚ)
    (hc : 0 < c) (htot : 0 < curveTotal (phaseACurveDaily t P W a)) :
    adjustedCurveDaily t P W (fun d => c * a d) = adjustedCurveDaily t P W a := by
  by_cases hp : 0 < plannedDaily W t.startD t.endD
  · have hA : phaseACurveDaily t P W (fun d => c * a d) =
        (phaseACurveDaily t P W a).map (fun p => ⟨p.date, p.mp * c⟩) := by
      rw [phaseACurveDaily_eq, phaseACurveDaily_eq, List.map_map]
      apply List.map_congr_left
      intro d hd
      simp only [Function.comp, if_pos hp]
      have h : adjManDays t P / (durationDays t : ℚ) *
          (c * a d / plannedDaily W t.startD t.endD) =
          adjManDays t P / (durationDays t : ℚ) *
            (a d / plannedDaily W t.startD t.endD) * c := by
        ring
      rw [h]
    have htotc : curveTotal (phaseACurveDaily t P W (fun d => c * a d)) =
        curveTotal (phaseACurveDaily t P W a) * c := by
      rw [hA, curveTotal_map_mul]
    unfold adjustedCurveDaily
    rw [phaseB_map, phaseB_map, htotc, if_pos (mul_pos htot hc), if_pos htot, hA,
      List.map_map]
    apply List.map_congr_left
    intro p hp2
    simp only [Function.comp]
    have hTne : curveTotal (phaseACurveDaily t P W a) ≠ 0 := ne_of_gt htot
    have hcne : c ≠ 0 := ne_of_gt hc
    have h : p.mp * c *
        (adjManDays t P / (curveTotal (phaseACurveDaily t P W a) * c)) =
        p.mp * (adjManDays t P / curveTotal (phaseACurveDaily t P W a)) := by
      field_simp
      ring
    rw [h]
  · have h1 : phaseACurveDaily t P W (fun d => c * a d) = baseCurve t P := by
      rw [phaseACurveDaily_eq]
      simp only [if_neg hp]
      rfl
    have h2 : phaseACurveDaily t P W a = baseCurve t P := by
      rw [phaseACurveDaily_eq]
      simp only [if_neg hp]
      rfl
    unfold adjustedCurveDaily
    rw [h1, h2]

/-- Witness for C10 (amended): doubling the daily defaults of the sample task
leaves its final curve unchanged. -/
theorem C10_scaling_invariance_witness :
    adjustedCurveDaily sampleTaskWeek 100 sampleW
        (fun d => 2 * dailyDefault sampleW 19723 19729 d) =
      adjustedCurveDaily sampleTaskWeek 100 sampleW (dailyDefault sampleW 19723 19729) :=
  C10_scaling_invariance sampleTaskWeek 100 sampleW (dailyDefault sampleW 19723 19729) 2
    (by norm_num) (by decide)


end Manpower

end ManpowerDevelopment
